import Mathlib

/-!
Verification of the Möbius strip model (`mobius_strip.py`).

The source is a single Python class `MobiusStrip` built on numpy arrays of
floating point numbers.  Following the spec's reading of the numerics
("in exact real arithmetic"), the embedding replaces IEEE floats by real
numbers and numpy arrays by lists (1-D) and lists of lists (2-D), keeping
every closed-form formula of the source verbatim.  Python `IndexError`
(raised by numpy on an out-of-bounds scalar index) is modelled by an
`Except` error value; the two query methods return `Except Err ℝ` because
they read `u[1]`, `u[0]`, `v[1]`, `v[0]`, which fail for `n < 2`.
-/

namespace Mobius

/-- Errors a method call can surface.  The source never raises a dedicated
invalid-parameter error; `invalidParameter` is included so that statements
can distinguish the error kind actually raised (numpy raises `IndexError`,
modelled as `indexOutOfRange i` for a read `a[i]` out of bounds). -/
inductive Err where
  | indexOutOfRange : ℕ → Err
  | invalidParameter : Err
  deriving DecidableEq

/-- Value at index `i` of `np.linspace(a, b, n)` (inclusive endpoints):
`a + i * (b - a) / (n - 1)`.  For `n = 1` numpy returns `[a]`; here the
real-field convention `x / 0 = 0` gives the same single value `a`. -/
noncomputable def linVal (a b : ℝ) (n i : ℕ) : ℝ :=
  a + i * ((b - a) / ((n : ℝ) - 1))

/-- `np.linspace(a, b, n)` as a list of length `n`. -/
noncomputable def linspace (a b : ℝ) (n : ℕ) : List ℝ :=
  (List.range n).map (linVal a b n)

/-- `self.u = np.linspace(0, 2 * np.pi, n)`, value at index `i`. -/
noncomputable def uVal (n i : ℕ) : ℝ :=
  linVal 0 (2 * Real.pi) n i

/-- `self.u = np.linspace(0, 2 * np.pi, n)`. -/
noncomputable def uSeq (n : ℕ) : List ℝ :=
  linspace 0 (2 * Real.pi) n

/-- `self.v = np.linspace(-w / 2, w / 2, n)`, value at index `j`. -/
noncomputable def vVal (w : ℝ) (n j : ℕ) : ℝ :=
  linVal (-(w / 2)) (w / 2) n j

/-- `self.v = np.linspace(-w / 2, w / 2, n)`. -/
noncomputable def vSeq (w : ℝ) (n : ℕ) : List ℝ :=
  linspace (-(w / 2)) (w / 2) n

/-- Entry `(j, i)` of `U` where `self.U, self.V = np.meshgrid(self.u, self.v)`
(numpy default indexing: `U[j][i] = u[i]`). -/
noncomputable def uGridVal (n j i : ℕ) : ℝ :=
  uVal n i

/-- Entry `(j, i)` of `V` from `np.meshgrid`: `V[j][i] = v[j]`. -/
noncomputable def vGridVal (w : ℝ) (n j i : ℕ) : ℝ :=
  vVal w n j

/-- `self.U` as an n×n list of rows. -/
noncomputable def uGrid (n : ℕ) : List (List ℝ) :=
  (List.range n).map fun j => (List.range n).map fun i => uGridVal n j i

/-- `self.V` as an n×n list of rows. -/
noncomputable def vGrid (w : ℝ) (n : ℕ) : List (List ℝ) :=
  (List.range n).map fun j => (List.range n).map fun i => vGridVal w n j i

/-- §4.1 position function, x-component:
`x = (R + v*cos(u/2)) * cos(u)` (from `_generate_mesh`). -/
noncomputable def xPos (R u v : ℝ) : ℝ :=
  (R + v * Real.cos (u / 2)) * Real.cos u

/-- §4.1 position function, y-component: `y = (R + v*cos(u/2)) * sin(u)`. -/
noncomputable def yPos (R u v : ℝ) : ℝ :=
  (R + v * Real.cos (u / 2)) * Real.sin u

/-- §4.1 position function, z-component: `z = v*sin(u/2)` (no `R`). -/
noncomputable def zPos (u v : ℝ) : ℝ :=
  v * Real.sin (u / 2)

/-- `_generate_mesh`: entry `(j, i)` of the stored `x` grid, computed
elementwise from `U` and `V` exactly as in the source. -/
noncomputable def xMeshVal (R w : ℝ) (n j i : ℕ) : ℝ :=
  (R + vGridVal w n j i * Real.cos (uGridVal n j i / 2)) * Real.cos (uGridVal n j i)

/-- `_generate_mesh`: entry `(j, i)` of the stored `y` grid. -/
noncomputable def yMeshVal (R w : ℝ) (n j i : ℕ) : ℝ :=
  (R + vGridVal w n j i * Real.cos (uGridVal n j i / 2)) * Real.sin (uGridVal n j i)

/-- `_generate_mesh`: entry `(j, i)` of the stored `z` grid. -/
noncomputable def zMeshVal (w : ℝ) (n j i : ℕ) : ℝ :=
  vGridVal w n j i * Real.sin (uGridVal n j i / 2)

/-- The stored mesh component `x` as an n×n list of rows. -/
noncomputable def xMesh (R w : ℝ) (n : ℕ) : List (List ℝ) :=
  (List.range n).map fun j => (List.range n).map fun i => xMeshVal R w n j i

/-- The stored mesh component `y` as an n×n list of rows. -/
noncomputable def yMesh (R w : ℝ) (n : ℕ) : List (List ℝ) :=
  (List.range n).map fun j => (List.range n).map fun i => yMeshVal R w n j i

/-- The stored mesh component `z` as an n×n list of rows. -/
noncomputable def zMesh (w : ℝ) (n : ℕ) : List (List ℝ) :=
  (List.range n).map fun j => (List.range n).map fun i => zMeshVal w n j i

/-- The model state after `__init__` (which also runs `_generate_mesh`):
all stored fields of a constructed `MobiusStrip`. -/
structure Model where
  R : ℝ
  w : ℝ
  n : ℕ
  u : List ℝ
  v : List ℝ
  U : List (List ℝ)
  V : List (List ℝ)
  mesh : List (List ℝ) × List (List ℝ) × List (List ℝ)

/-- `MobiusStrip.__init__(R, w, n)`: stores the parameters, builds the
parameter sequences and meshgrid, and populates the mesh.  The source
performs no parameter validation, so construction is total. -/
noncomputable def init (R w : ℝ) (n : ℕ) : Model :=
  ⟨R, w, n, uSeq n, vSeq w n, uGrid n, vGrid w n,
    (xMesh R w n, yMesh R w n, zMesh w n)⟩

/-- Scalar read `a[i]` on a 1-D array: numpy raises `IndexError` when `i`
is out of bounds. -/
def idx (l : List ℝ) (i : ℕ) : Except Err ℝ :=
  match l[i]? with
  | some x => Except.ok x
  | none => Except.error (Err.indexOutOfRange i)

/-- `compute_surface_area`, partial derivative `x_u` (formula verbatim):
`-(R + v*cos(u/2))*sin(u) - (v/2)*sin(u/2)*cos(u)`. -/
noncomputable def x_u (R u v : ℝ) : ℝ :=
  -(R + v * Real.cos (u / 2)) * Real.sin u - (v / 2) * Real.sin (u / 2) * Real.cos u

/-- `compute_surface_area`, partial derivative `y_u`:
`(R + v*cos(u/2))*cos(u) - (v/2)*sin(u/2)*sin(u)`. -/
noncomputable def y_u (R u v : ℝ) : ℝ :=
  (R + v * Real.cos (u / 2)) * Real.cos u - (v / 2) * Real.sin (u / 2) * Real.sin u

/-- `compute_surface_area`, partial derivative `z_u`: `(v/2)*cos(u/2)`. -/
noncomputable def z_u (u v : ℝ) : ℝ :=
  (v / 2) * Real.cos (u / 2)

/-- `compute_surface_area`, partial derivative `x_v`: `cos(u/2)*cos(u)`
(independent of `R` and `v`). -/
noncomputable def x_v (u : ℝ) : ℝ :=
  Real.cos (u / 2) * Real.cos u

/-- `compute_surface_area`, partial derivative `y_v`: `cos(u/2)*sin(u)`. -/
noncomputable def y_v (u : ℝ) : ℝ :=
  Real.cos (u / 2) * Real.sin u

/-- `compute_surface_area`, partial derivative `z_v`: `sin(u/2)`. -/
noncomputable def z_v (u : ℝ) : ℝ :=
  Real.sin (u / 2)

/-- `compute_surface_area`'s integrand at a grid point: the magnitude of
the cross product of the two partial-derivative vectors, written exactly
as in the source (`sqrt` of the sum of the three squared components). -/
noncomputable def areaIntegrand (R u v : ℝ) : ℝ :=
  Real.sqrt ((y_u R u v * z_v u - z_u u v * y_v u) ^ 2 +
             (z_u u v * x_v u - x_u R u v * z_v u) ^ 2 +
             (x_u R u v * y_v u - y_u R u v * x_v u) ^ 2)

/-- `np.sum(integrand)` over the n×n grid: `integrand[j][i]` is the
elementwise formula at `(U[j][i], V[j][i]) = (u[i], v[j])`. -/
noncomputable def areaIntegrandSum (R w : ℝ) (n : ℕ) : ℝ :=
  ∑ j ∈ Finset.range n, ∑ i ∈ Finset.range n, areaIntegrand R (uVal n i) (vVal w n j)

/-- `compute_surface_area`: the integrand array always evaluates, then
`du = u[1] - u[0]` and `dv = v[1] - v[0]` are read (the out-of-bounds
reads for `n < 2` surface here), and `np.sum(integrand) * du * dv` is
returned. -/
noncomputable def compute_surface_area (R w : ℝ) (n : ℕ) : Except Err ℝ := do
  let s := areaIntegrandSum R w n
  let u1 ← idx (uSeq n) 1
  let u0 ← idx (uSeq n) 0
  let v1 ← idx (vSeq w n) 1
  let v0 ← idx (vSeq w n) 0
  return s * (u1 - u0) * (v1 - v0)

/-- `compute_edge_length`, derivative `dx_du` at `v = w/2` (verbatim):
`-(R + (w/2)*cos(u/2))*sin(u) - (w/4)*sin(u/2)*cos(u)`. -/
noncomputable def dx_du (R w u : ℝ) : ℝ :=
  -(R + (w / 2) * Real.cos (u / 2)) * Real.sin u - (w / 4) * Real.sin (u / 2) * Real.cos u

/-- `compute_edge_length`, derivative `dy_du`:
`(R + (w/2)*cos(u/2))*cos(u) - (w/4)*sin(u/2)*sin(u)`. -/
noncomputable def dy_du (R w u : ℝ) : ℝ :=
  (R + (w / 2) * Real.cos (u / 2)) * Real.cos u - (w / 4) * Real.sin (u / 2) * Real.sin u

/-- `compute_edge_length`, derivative `dz_du`: `(w/4)*cos(u/2)`. -/
noncomputable def dz_du (w u : ℝ) : ℝ :=
  (w / 4) * Real.cos (u / 2)

/-- `compute_edge_length`'s arc-length integrand (speed):
`sqrt(dx_du**2 + dy_du**2 + dz_du**2)`. -/
noncomputable def edgeIntegrand (R w u : ℝ) : ℝ :=
  Real.sqrt (dx_du R w u ^ 2 + dy_du R w u ^ 2 + dz_du w u ^ 2)

/-- `np.sum(integrand)` over the `n` angular samples. -/
noncomputable def edgeIntegrandSum (R w : ℝ) (n : ℕ) : ℝ :=
  ∑ i ∈ Finset.range n, edgeIntegrand R w (uVal n i)

/-- `compute_edge_length`: the integrand evaluates, `du = u[1] - u[0]` is
read (out-of-bounds for `n < 2`), `np.sum(integrand) * du` is returned. -/
noncomputable def compute_edge_length (R w : ℝ) (n : ℕ) : Except Err ℝ := do
  let s := edgeIntegrandSum R w n
  let u1 ← idx (uSeq n) 1
  let u0 ← idx (uSeq n) 0
  return s * (u1 - u0)

/-- `compute_surface_area` seen as a method: it reads the state and
assigns nothing to `self`, so the state after the call is the state
before it. -/
noncomputable def Model.surfaceArea (m : Model) : Except Err ℝ × Model :=
  (compute_surface_area m.R m.w m.n, m)

/-- `compute_edge_length` seen as a method: reads only, no assignment to
`self`. -/
noncomputable def Model.edgeLength (m : Model) : Except Err ℝ × Model :=
  (compute_edge_length m.R m.w m.n, m)

/-- The scalar value `compute_surface_area` returns when `n ≥ 2`. -/
noncomputable def surfaceAreaVal (R w : ℝ) (n : ℕ) : ℝ :=
  areaIntegrandSum R w n * (uVal n 1 - uVal n 0) * (vVal w n 1 - vVal w n 0)

/-- The scalar value `compute_edge_length` returns when `n ≥ 2`. -/
noncomputable def edgeLengthVal (R w : ℝ) (n : ℕ) : ℝ :=
  edgeIntegrandSum R w n * (uVal n 1 - uVal n 0)

/-- 3-D cross product on coordinate triples. -/
def cross3 (a b : ℝ × ℝ × ℝ) : ℝ × ℝ × ℝ :=
  (a.2.1 * b.2.2 - a.2.2 * b.2.1,
   a.2.2 * b.1 - a.1 * b.2.2,
   a.1 * b.2.1 - a.2.1 * b.1)

/-- Euclidean norm of a coordinate triple. -/
noncomputable def norm3 (p : ℝ × ℝ × ℝ) : ℝ :=
  Real.sqrt (p.1 ^ 2 + p.2.1 ^ 2 + p.2.2 ^ 2)

/-- Entry `(j, i)` of a 2-D list, as an optional value. -/
def entry (g : List (List ℝ)) (j i : ℕ) : Option ℝ :=
  g[j]?.bind fun row => row[i]?

/-! ### Basic access lemmas -/

lemma linspace_length (a b : ℝ) (n : ℕ) : (linspace a b n).length = n := by
  simp [linspace]

lemma linspace_getElem (a b : ℝ) (n i : ℕ) :
    (linspace a b n)[i]? = if i < n then some (linVal a b n i) else none := by
  unfold linspace
  rcases lt_or_le i n with h | h
  · rw [List.getElem?_eq_getElem (by simpa using h)]
    simp [h]
  · rw [List.getElem?_eq_none (by simpa using h)]
    simp [Nat.not_lt.mpr h]

lemma uSeq_getElem (n i : ℕ) (h : i < n) : (uSeq n)[i]? = some (uVal n i) := by
  simp [uSeq, uVal, linspace_getElem, h]

lemma vSeq_getElem (w : ℝ) (n j : ℕ) (h : j < n) :
    (vSeq w n)[j]? = some (vVal w n j) := by
  simp [vSeq, vVal, linspace_getElem, h]

lemma uSeq_getElem_oob (n i : ℕ) (h : n ≤ i) : (uSeq n)[i]? = none := by
  simp [uSeq, linspace_getElem, Nat.not_lt.mpr h]

lemma idx_uSeq (n i : ℕ) (h : i < n) :
    idx (uSeq n) i = Except.ok (uVal n i) := by
  simp [idx, uSeq_getElem n i h]

lemma idx_vSeq (w : ℝ) (n j : ℕ) (h : j < n) :
    idx (vSeq w n) j = Except.ok (vVal w n j) := by
  simp [idx, vSeq_getElem w n j h]

lemma idx_uSeq_oob (n i : ℕ) (h : n ≤ i) :
    idx (uSeq n) i = Except.error (Err.indexOutOfRange i) := by
  simp [idx, uSeq_getElem_oob n i h]

/-- For `n ≥ 2` the surface-area method returns the scalar value. -/
lemma compute_surface_area_ok (R w : ℝ) (n : ℕ) (hn : 2 ≤ n) :
    compute_surface_area R w n = Except.ok (surfaceAreaVal R w n) := by
  unfold compute_surface_area
  rw [idx_uSeq n 1 (by omega), idx_uSeq n 0 (by omega),
    idx_vSeq w n 1 (by omega), idx_vSeq w n 0 (by omega)]
  rfl

/-- For `n ≥ 2` the edge-length method returns the scalar value. -/
lemma compute_edge_length_ok (R w : ℝ) (n : ℕ) (hn : 2 ≤ n) :
    compute_edge_length R w n = Except.ok (edgeLengthVal R w n) := by
  unfold compute_edge_length
  rw [idx_uSeq n 1 (by omega), idx_uSeq n 0 (by omega)]
  rfl

/-- For `n < 2` the surface-area method fails on the read of `u[1]`. -/
lemma compute_surface_area_err (R w : ℝ) (n : ℕ) (hn : n < 2) :
    compute_surface_area R w n = Except.error (Err.indexOutOfRange 1) := by
  unfold compute_surface_area
  rw [idx_uSeq_oob n 1 (by omega)]
  rfl

/-- For `n < 2` the edge-length method fails on the read of `u[1]`. -/
lemma compute_edge_length_err (R w : ℝ) (n : ℕ) (hn : n < 2) :
    compute_edge_length R w n = Except.error (Err.indexOutOfRange 1) := by
  unfold compute_edge_length
  rw [idx_uSeq_oob n 1 (by omega)]
  rfl

/-! ### Values of the parameter sequences -/

lemma uVal_zero (n : ℕ) : uVal n 0 = 0 := by
  simp [uVal, linVal]

lemma uVal_step (n i : ℕ) :
    uVal n (i + 1) - uVal n i = 2 * Real.pi / ((n : ℝ) - 1) := by
  unfold uVal linVal
  push_cast
  ring

lemma cast_pred_ne_zero (n : ℕ) (hn : 2 ≤ n) : (n : ℝ) - 1 ≠ 0 := by
  have : (2 : ℝ) ≤ (n : ℝ) := by exact_mod_cast hn
  linarith

lemma uVal_last (n : ℕ) (hn : 2 ≤ n) : uVal n (n - 1) = 2 * Real.pi := by
  unfold uVal linVal
  have h1 : ((n - 1 : ℕ) : ℝ) = (n : ℝ) - 1 := by
    have : 1 ≤ n := by omega
    push_cast [this]
    ring
  have hne := cast_pred_ne_zero n hn
  rw [h1]
  field_simp

lemma vVal_zero (w : ℝ) (n : ℕ) : vVal w n 0 = -(w / 2) := by
  simp [vVal, linVal]

lemma vVal_step (w : ℝ) (n j : ℕ) :
    vVal w n (j + 1) - vVal w n j = w / ((n : ℝ) - 1) := by
  unfold vVal linVal
  push_cast
  ring

lemma vVal_last (w : ℝ) (n : ℕ) (hn : 2 ≤ n) : vVal w n (n - 1) = w / 2 := by
  unfold vVal linVal
  have h1 : ((n - 1 : ℕ) : ℝ) = (n : ℝ) - 1 := by
    have : 1 ≤ n := by omega
    push_cast [this]
    ring
  have hne := cast_pred_ne_zero n hn
  rw [h1]
  field_simp
  ring

/-- The across-width samples are symmetric about `0`. -/
lemma vVal_reflect (w : ℝ) (n j : ℕ) (hn : 2 ≤ n) (hj : j < n) :
    vVal w n (n - 1 - j) = -(vVal w n j) := by
  unfold vVal linVal
  have h1 : ((n - 1 - j : ℕ) : ℝ) = (n : ℝ) - 1 - (j : ℝ) := by
    have : j ≤ n - 1 := by omega
    push_cast [Nat.sub_sub, this]
    have h2 : (1 + j : ℕ) ≤ n := by omega
    push_cast [h2]
    ring
  rw [h1]
  have hne := cast_pred_ne_zero n hn
  field_simp
  ring

/-! ### The source's closed-form derivative expressions are the analytic
derivatives of the §4.1 position function -/

lemma hasDerivAt_half (t : ℝ) : HasDerivAt (fun s : ℝ => s / 2) (1 / 2) t := by
  simpa using (hasDerivAt_id t).div_const 2

lemma hasDerivAt_cos_half (t : ℝ) :
    HasDerivAt (fun s : ℝ => Real.cos (s / 2)) (-Real.sin (t / 2) * (1 / 2)) t :=
  (Real.hasDerivAt_cos (t / 2)).comp t (hasDerivAt_half t)

lemma hasDerivAt_sin_half (t : ℝ) :
    HasDerivAt (fun s : ℝ => Real.sin (s / 2)) (Real.cos (t / 2) * (1 / 2)) t :=
  (Real.hasDerivAt_sin (t / 2)).comp t (hasDerivAt_half t)

/-- `x_u` is the `u`-partial of the position's x-component. -/
lemma hasDerivAt_xPos_u (R v t : ℝ) :
    HasDerivAt (fun s => xPos R s v) (x_u R t v) t := by
  have h1 : HasDerivAt (fun s : ℝ => R + v * Real.cos (s / 2))
      (v * (-Real.sin (t / 2) * (1 / 2))) t :=
    ((hasDerivAt_cos_half t).const_mul v).const_add R
  have h3 := h1.mul (Real.hasDerivAt_cos t)
  simp only [xPos]
  convert h3 using 1
  unfold x_u
  ring

/-- `y_u` is the `u`-partial of the position's y-component. -/
lemma hasDerivAt_yPos_u (R v t : ℝ) :
    HasDerivAt (fun s => yPos R s v) (y_u R t v) t := by
  have h1 : HasDerivAt (fun s : ℝ => R + v * Real.cos (s / 2))
      (v * (-Real.sin (t / 2) * (1 / 2))) t :=
    ((hasDerivAt_cos_half t).const_mul v).const_add R
  have h3 := h1.mul (Real.hasDerivAt_sin t)
  simp only [yPos]
  convert h3 using 1
  unfold y_u
  ring

/-- `z_u` is the `u`-partial of the position's z-component. -/
lemma hasDerivAt_zPos_u (v t : ℝ) :
    HasDerivAt (fun s => zPos s v) (z_u t v) t := by
  have h3 := (hasDerivAt_sin_half t).const_mul v
  simp only [zPos]
  convert h3 using 1
  unfold z_u
  ring

/-- `x_v` is the `v`-partial of the position's x-component. -/
lemma hasDerivAt_xPos_v (R u s : ℝ) :
    HasDerivAt (fun r => xPos R u r) (x_v u) s := by
  have h1 : HasDerivAt (fun r : ℝ => R + r * Real.cos (u / 2)) (Real.cos (u / 2)) s := by
    simpa using ((hasDerivAt_id s).mul_const (Real.cos (u / 2))).const_add R
  have h2 := h1.mul_const (Real.cos u)
  simp only [xPos]
  exact h2

/-- `y_v` is the `v`-partial of the position's y-component. -/
lemma hasDerivAt_yPos_v (R u s : ℝ) :
    HasDerivAt (fun r => yPos R u r) (y_v u) s := by
  have h1 : HasDerivAt (fun r : ℝ => R + r * Real.cos (u / 2)) (Real.cos (u / 2)) s := by
    simpa using ((hasDerivAt_id s).mul_const (Real.cos (u / 2))).const_add R
  have h2 := h1.mul_const (Real.sin u)
  simp only [yPos]
  exact h2

/-- `z_v` is the `v`-partial of the position's z-component. -/
lemma hasDerivAt_zPos_v (u s : ℝ) :
    HasDerivAt (fun r => zPos u r) (z_v u) s := by
  have h2 := (hasDerivAt_id s).mul_const (Real.sin (u / 2))
  simp only [zPos]
  convert h2 using 1
  unfold z_v
  ring

/-- The edge-length derivative expressions are the `u`-partials at `v = w/2`. -/
lemma dx_du_eq (R w u : ℝ) : dx_du R w u = x_u R u (w / 2) := by
  unfold dx_du x_u
  ring

lemma dy_du_eq (R w u : ℝ) : dy_du R w u = y_u R u (w / 2) := by
  unfold dy_du y_u
  ring

lemma dz_du_eq (w u : ℝ) : dz_du w u = z_u u (w / 2) := by
  unfold dz_du z_u
  ring

/-! ### Grid entry and injectivity lemmas -/

lemma entry_map2 (f : ℕ → ℕ → ℝ) {n j i : ℕ} (hj : j < n) (hi : i < n) :
    entry ((List.range n).map fun a => (List.range n).map fun b => f a b) j i =
      some (f j i) := by
  unfold entry
  have h1 : ((List.range n).map fun a => (List.range n).map fun b => f a b)[j]? =
      some ((List.range n).map fun b => f j b) := by
    rw [List.getElem?_eq_getElem (by simpa using hj)]
    simp
  rw [h1, Option.some_bind]
  rw [List.getElem?_eq_getElem (by simpa using hi)]
  simp

lemma uVal_inj (n : ℕ) (hn : 2 ≤ n) {a b : ℕ} (h : uVal n a = uVal n b) : a = b := by
  unfold uVal linVal at h
  simp only [zero_add] at h
  have hs : (2 * Real.pi - 0) / ((n : ℝ) - 1) ≠ 0 := by
    refine div_ne_zero ?_ (cast_pred_ne_zero n hn)
    have := Real.pi_pos
    intro hc
    linarith
  have hab : (a : ℝ) = b := mul_right_cancel₀ hs h
  exact_mod_cast hab

lemma vVal_inj (w : ℝ) (n : ℕ) (hw : 0 < w) (hn : 2 ≤ n) {a b : ℕ}
    (h : vVal w n a = vVal w n b) : a = b := by
  unfold vVal linVal at h
  have h2 := add_left_cancel h
  have hs : (w / 2 - -(w / 2)) / ((n : ℝ) - 1) ≠ 0 := by
    refine div_ne_zero ?_ (cast_pred_ne_zero n hn)
    intro hc
    have : w = 0 := by linarith
    exact hw.ne (id this.symm)
  have hab : (a : ℝ) = b := mul_right_cancel₀ hs h2
  exact_mod_cast hab

/-! ### Claim theorems -/

/-- C1: for every validly constructed model (`R > 0`, `w > 0`, `n ≥ 2`),
`compute_surface_area` returns the sum over all n×n grid points
`(u_i, v_j)` of the Euclidean norm of the cross product of the analytic
partial derivatives `∂P/∂u` and `∂P/∂v` of the §4.1 position function,
multiplied by `du·dv` with `du = u[1]-u[0]`, `dv = v[1]-v[0]`; the
`∂P/∂v` expressions do not depend on `R` (they are certified below as the
`v`-partials for every radius, with one fixed value). -/
theorem surface_area_is_cross_product_riemann_sum (R w : ℝ) (n : ℕ)
    (hR : 0 < R) (hw : 0 < w) (hn : 2 ≤ n) :
    (∀ u v : ℝ,
      HasDerivAt (fun s => xPos R s v) (x_u R u v) u ∧
      HasDerivAt (fun s => yPos R s v) (y_u R u v) u ∧
      HasDerivAt (fun s => zPos s v) (z_u u v) u) ∧
    (∀ Ra u v : ℝ,
      HasDerivAt (fun r => xPos Ra u r) (x_v u) v ∧
      HasDerivAt (fun r => yPos Ra u r) (y_v u) v ∧
      HasDerivAt (fun r => zPos u r) (z_v u) v) ∧
    compute_surface_area R w n =
      Except.ok ((∑ j ∈ Finset.range n, ∑ i ∈ Finset.range n,
          norm3 (cross3
            (x_u R (uVal n i) (vVal w n j), y_u R (uVal n i) (vVal w n j),
              z_u (uVal n i) (vVal w n j))
            (x_v (uVal n i), y_v (uVal n i), z_v (uVal n i)))) *
        (uVal n 1 - uVal n 0) * (vVal w n 1 - vVal w n 0)) := by
  refine ⟨fun u v => ⟨hasDerivAt_xPos_u R v u, hasDerivAt_yPos_u R v u, hasDerivAt_zPos_u v u⟩,
    fun Ra u v => ⟨hasDerivAt_xPos_v Ra u v, hasDerivAt_yPos_v Ra u v, hasDerivAt_zPos_v u v⟩, ?_⟩
  rw [compute_surface_area_ok R w n hn]
  rfl

/-- C1 witness: the hypotheses hold at `R = 1`, `w = 1`, `n = 2` and the
theorem applies there. -/
theorem surface_area_is_cross_product_riemann_sum_witness :
    (0 : ℝ) < 1 ∧ 2 ≤ 2 ∧
    compute_surface_area 1 1 2 =
      Except.ok ((∑ j ∈ Finset.range 2, ∑ i ∈ Finset.range 2,
          norm3 (cross3
            (x_u 1 (uVal 2 i) (vVal 1 2 j), y_u 1 (uVal 2 i) (vVal 1 2 j),
              z_u (uVal 2 i) (vVal 1 2 j))
            (x_v (uVal 2 i), y_v (uVal 2 i), z_v (uVal 2 i)))) *
        (uVal 2 1 - uVal 2 0) * (vVal 1 2 1 - vVal 1 2 0)) :=
  ⟨by norm_num, by norm_num,
    (surface_area_is_cross_product_riemann_sum 1 1 2 (by norm_num) (by norm_num)
      (by norm_num)).2.2⟩

/-- C2: for every validly constructed model (`R > 0`, `w > 0`, `n ≥ 2`),
`compute_edge_length` returns the sum over the `n` angular samples `u_i`
of the Euclidean norm of the analytic `u`-derivative of the boundary
curve `P(u, w/2)` (the §4.1 position at `v = w/2`), multiplied by
`du = u[1]-u[0]`. -/
theorem edge_length_is_speed_riemann_sum (R w : ℝ) (n : ℕ)
    (hR : 0 < R) (hw : 0 < w) (hn : 2 ≤ n) :
    (∀ u : ℝ,
      HasDerivAt (fun s => xPos R s (w / 2)) (dx_du R w u) u ∧
      HasDerivAt (fun s => yPos R s (w / 2)) (dy_du R w u) u ∧
      HasDerivAt (fun s => zPos s (w / 2)) (dz_du w u) u) ∧
    compute_edge_length R w n =
      Except.ok ((∑ i ∈ Finset.range n,
          norm3 (dx_du R w (uVal n i), dy_du R w (uVal n i), dz_du w (uVal n i))) *
        (uVal n 1 - uVal n 0)) := by
  constructor
  · intro u
    refine ⟨?_, ?_, ?_⟩
    · rw [dx_du_eq]
      exact hasDerivAt_xPos_u R (w / 2) u
    · rw [dy_du_eq]
      exact hasDerivAt_yPos_u R (w / 2) u
    · rw [dz_du_eq]
      exact hasDerivAt_zPos_u (w / 2) u
  · rw [compute_edge_length_ok R w n hn]
    rfl

/-- C2 witness: the hypotheses hold at `R = 1`, `w = 1`, `n = 2` and the
theorem applies there. -/
theorem edge_length_is_speed_riemann_sum_witness :
    (0 : ℝ) < 1 ∧ 2 ≤ 2 ∧
    compute_edge_length 1 1 2 =
      Except.ok ((∑ i ∈ Finset.range 2,
          norm3 (dx_du 1 1 (uVal 2 i), dy_du 1 1 (uVal 2 i), dz_du 1 (uVal 2 i))) *
        (uVal 2 1 - uVal 2 0)) :=
  ⟨by norm_num, by norm_num,
    (edge_length_is_speed_riemann_sum 1 1 2 (by norm_num) (by norm_num) (by norm_num)).2⟩

/-- C3: for every valid model the stored PositionMesh `(X, Y, Z)` applies
the position function pointwise to the full cross product of `u` and `v`:
entry `(j, i)` is the §4.1 formula at `(u_i, v_j)`, and each pair
`(u_i, v_j)` appears at exactly one grid cell of `(U, V)`. -/
theorem mesh_is_pointwise_position_on_full_grid (R w : ℝ) (n : ℕ)
    (hR : 0 < R) (hw : 0 < w) (hn : 2 ≤ n) :
    (∀ j i : ℕ, j < n → i < n →
      entry (xMesh R w n) j i =
        some ((R + vVal w n j * Real.cos (uVal n i / 2)) * Real.cos (uVal n i)) ∧
      entry (yMesh R w n) j i =
        some ((R + vVal w n j * Real.cos (uVal n i / 2)) * Real.sin (uVal n i)) ∧
      entry (zMesh w n) j i = some (vVal w n j * Real.sin (uVal n i / 2)) ∧
      entry (xMesh R w n) j i = some (xPos R (uVal n i) (vVal w n j)) ∧
      entry (yMesh R w n) j i = some (yPos R (uVal n i) (vVal w n j)) ∧
      entry (zMesh w n) j i = some (zPos (uVal n i) (vVal w n j))) ∧
    (∀ j i : ℕ, j < n → i < n →
      ∃! p : ℕ × ℕ, p.1 < n ∧ p.2 < n ∧
        entry (uGrid n) p.1 p.2 = some (uVal n i) ∧
        entry (vGrid w n) p.1 p.2 = some (vVal w n j)) := by
  constructor
  · intro j i hj hi
    refine ⟨?_, ?_, ?_, ?_, ?_, ?_⟩ <;>
      first
        | exact entry_map2 (fun a b => xMeshVal R w n a b) hj hi
        | exact entry_map2 (fun a b => yMeshVal R w n a b) hj hi
        | exact entry_map2 (fun a b => zMeshVal w n a b) hj hi
  · intro j i hj hi
    refine ⟨(j, i), ⟨hj, hi, ?_, ?_⟩, ?_⟩
    · exact entry_map2 (fun a b => uGridVal n a b) hj hi
    · exact entry_map2 (fun a b => vGridVal w n a b) hj hi
    · rintro ⟨a, b⟩ ⟨ha, hb, hu, hv⟩
      have hu2 : entry (uGrid n) a b = some (uVal n b) :=
        entry_map2 (fun c d => uGridVal n c d) ha hb
      have hv2 : entry (vGrid w n) a b = some (vVal w n a) :=
        entry_map2 (fun c d => vGridVal w n c d) ha hb
      rw [hu2] at hu
      rw [hv2] at hv
      have hb2 : b = i := uVal_inj n hn (Option.some_injective ℝ hu)
      have ha2 : a = j := vVal_inj w n hw hn (Option.some_injective ℝ hv)
      simp [ha2, hb2]

/-- C3 witness: the theorem applies at `R = 1`, `w = 1`, `n = 2`. -/
theorem mesh_is_pointwise_position_on_full_grid_witness :
    (0 : ℝ) < 1 ∧ 2 ≤ 2 ∧
    entry (xMesh 1 1 2) 0 0 = some (xPos 1 (uVal 2 0) (vVal 1 2 0)) ∧
    (∃! p : ℕ × ℕ, p.1 < 2 ∧ p.2 < 2 ∧
      entry (uGrid 2) p.1 p.2 = some (uVal 2 0) ∧
      entry (vGrid 1 2) p.1 p.2 = some (vVal 1 2 0)) := by
  have h := mesh_is_pointwise_position_on_full_grid 1 1 2 (by norm_num) (by norm_num)
    (by norm_num)
  exact ⟨by norm_num, by norm_num, (h.1 0 0 (by norm_num) (by norm_num)).2.2.2.1,
    h.2 0 0 (by norm_num) (by norm_num)⟩

/-- C4 evidence (the claim is violated by the code): at `n = 1` with the
default `R = 1`, `w = 0.5`, construction completes — the constructor
performs no validation — and the `n < 2` failure only appears when a
query method reads `u[1]`, as an index-out-of-range error, not as an
invalid-parameter error. -/
theorem construction_n1_no_validation_then_index_error :
    (init 1 (1 / 2) 1).n = 1 ∧ (init 1 (1 / 2) 1).u = uSeq 1 ∧
    (uSeq 1).length = 1 ∧
    compute_surface_area 1 (1 / 2) 1 = Except.error (Err.indexOutOfRange 1) ∧
    compute_edge_length 1 (1 / 2) 1 = Except.error (Err.indexOutOfRange 1) ∧
    Err.indexOutOfRange 1 ≠ Err.invalidParameter := by
  refine ⟨rfl, rfl, ?_, ?_, ?_, ?_⟩
  · exact linspace_length 0 (2 * Real.pi) 1
  · exact compute_surface_area_err 1 (1 / 2) 1 (by norm_num)
  · exact compute_edge_length_err 1 (1 / 2) 1 (by norm_num)
  · intro hc
    cases hc

/-- C10: the constructor performs no parameter validation: for every real
`R`, real `w` and natural `n`, construction completes with all fields
populated; and when `n < 2` the failure surfaces only in the query
methods, as an index-out-of-range error on the read of `u[1]` — never as
an invalid-parameter error. -/
theorem no_constructor_validation_late_index_failure (R w : ℝ) (n : ℕ) :
    (init R w n).R = R ∧ (init R w n).w = w ∧ (init R w n).n = n ∧
    (init R w n).u = uSeq n ∧ (init R w n).v = vSeq w n ∧
    (init R w n).U = uGrid n ∧ (init R w n).V = vGrid w n ∧
    (init R w n).mesh = (xMesh R w n, yMesh R w n, zMesh w n) ∧
    (n < 2 →
      compute_surface_area R w n = Except.error (Err.indexOutOfRange 1) ∧
      compute_edge_length R w n = Except.error (Err.indexOutOfRange 1) ∧
      compute_surface_area R w n ≠ Except.error Err.invalidParameter ∧
      compute_edge_length R w n ≠ Except.error Err.invalidParameter) := by
  refine ⟨rfl, rfl, rfl, rfl, rfl, rfl, rfl, rfl, fun hn => ?_⟩
  have h1 := compute_surface_area_err R w n hn
  have h2 := compute_edge_length_err R w n hn
  refine ⟨h1, h2, ?_, ?_⟩
  · rw [h1]
    intro hc
    cases hc
  · rw [h2]
    intro hc
    cases hc

/-- C10 witness: the inner implication is discharged at `R = 1`, `w = 1`,
`n = 1`. -/
theorem no_constructor_validation_late_index_failure_witness :
    (init 1 1 1).n = 1 ∧
    compute_surface_area 1 1 1 = Except.error (Err.indexOutOfRange 1) ∧
    compute_edge_length 1 1 1 = Except.error (Err.indexOutOfRange 1) := by
  have h := no_constructor_validation_late_index_failure 1 1 1
  have h9 := h.2.2.2.2.2.2.2.2 (by norm_num)
  exact ⟨h.2.2.1, h9.1, h9.2.1⟩

/-! ### Half-twist closure values -/

lemma xMeshVal_last (R w : ℝ) (n j : ℕ) (hn : 2 ≤ n) :
    xMeshVal R w n j (n - 1) = xPos R 0 (-(vVal w n j)) := by
  unfold xMeshVal uGridVal vGridVal xPos
  rw [uVal_last n hn]
  have hpi : 2 * Real.pi / 2 = Real.pi := by ring
  rw [hpi]
  norm_num [Real.cos_pi, Real.cos_two_pi]

lemma yMeshVal_last (R w : ℝ) (n j : ℕ) (hn : 2 ≤ n) :
    yMeshVal R w n j (n - 1) = yPos R 0 (-(vVal w n j)) := by
  unfold yMeshVal uGridVal vGridVal yPos
  rw [uVal_last n hn]
  norm_num [Real.sin_two_pi]

lemma zMeshVal_last (w : ℝ) (n j : ℕ) (hn : 2 ≤ n) :
    zMeshVal w n j (n - 1) = zPos 0 (-(vVal w n j)) := by
  unfold zMeshVal uGridVal vGridVal zPos
  rw [uVal_last n hn]
  have hpi : 2 * Real.pi / 2 = Real.pi := by ring
  rw [hpi]
  norm_num [Real.sin_pi]

lemma xMeshVal_first_reflect (R w : ℝ) (n j : ℕ) (hn : 2 ≤ n) (hj : j < n) :
    xMeshVal R w n (n - 1 - j) 0 = xPos R 0 (-(vVal w n j)) := by
  unfold xMeshVal uGridVal vGridVal xPos
  rw [uVal_zero, vVal_reflect w n j hn hj]

lemma yMeshVal_first_reflect (R w : ℝ) (n j : ℕ) (hn : 2 ≤ n) (hj : j < n) :
    yMeshVal R w n (n - 1 - j) 0 = yPos R 0 (-(vVal w n j)) := by
  unfold yMeshVal uGridVal vGridVal yPos
  rw [uVal_zero, vVal_reflect w n j hn hj]

lemma zMeshVal_first_reflect (w : ℝ) (n j : ℕ) (hn : 2 ≤ n) (hj : j < n) :
    zMeshVal w n (n - 1 - j) 0 = zPos 0 (-(vVal w n j)) := by
  unfold zMeshVal uGridVal vGridVal zPos
  rw [uVal_zero, vVal_reflect w n j hn hj]

/-- C5: half-twist identification.  For every width sample `v_j`, the
stored mesh value in the last angular column (where `u = 2π`) at row `j`
equals the §4.1 position at `(u = 0, -v_j)`, which is the stored value in
the first angular column at the reflected row `n-1-j` (whose width sample
is `-v_j`). -/
theorem half_twist_closure (R w : ℝ) (n : ℕ)
    (hR : 0 < R) (hw : 0 < w) (hn : 2 ≤ n) (j : ℕ) (hj : j < n) :
    entry (xMesh R w n) j (n - 1) = some (xPos R 0 (-(vVal w n j))) ∧
    entry (yMesh R w n) j (n - 1) = some (yPos R 0 (-(vVal w n j))) ∧
    entry (zMesh w n) j (n - 1) = some (zPos 0 (-(vVal w n j))) ∧
    entry (xMesh R w n) (n - 1 - j) 0 = some (xPos R 0 (-(vVal w n j))) ∧
    entry (yMesh R w n) (n - 1 - j) 0 = some (yPos R 0 (-(vVal w n j))) ∧
    entry (zMesh w n) (n - 1 - j) 0 = some (zPos 0 (-(vVal w n j))) := by
  have hlast : n - 1 < n := by omega
  have hrefl : n - 1 - j < n := by omega
  have hzero : 0 < n := by omega
  refine ⟨?_, ?_, ?_, ?_, ?_, ?_⟩
  · have h1 : entry (xMesh R w n) j (n - 1) = some (xMeshVal R w n j (n - 1)) :=
      entry_map2 (fun a b => xMeshVal R w n a b) hj hlast
    rw [h1, xMeshVal_last R w n j hn]
  · have h1 : entry (yMesh R w n) j (n - 1) = some (yMeshVal R w n j (n - 1)) :=
      entry_map2 (fun a b => yMeshVal R w n a b) hj hlast
    rw [h1, yMeshVal_last R w n j hn]
  · have h1 : entry (zMesh w n) j (n - 1) = some (zMeshVal w n j (n - 1)) :=
      entry_map2 (fun a b => zMeshVal w n a b) hj hlast
    rw [h1, zMeshVal_last w n j hn]
  · have h1 : entry (xMesh R w n) (n - 1 - j) 0 = some (xMeshVal R w n (n - 1 - j) 0) :=
      entry_map2 (fun a b => xMeshVal R w n a b) hrefl hzero
    rw [h1, xMeshVal_first_reflect R w n j hn hj]
  · have h1 : entry (yMesh R w n) (n - 1 - j) 0 = some (yMeshVal R w n (n - 1 - j) 0) :=
      entry_map2 (fun a b => yMeshVal R w n a b) hrefl hzero
    rw [h1, yMeshVal_first_reflect R w n j hn hj]
  · have h1 : entry (zMesh w n) (n - 1 - j) 0 = some (zMeshVal w n (n - 1 - j) 0) :=
      entry_map2 (fun a b => zMeshVal w n a b) hrefl hzero
    rw [h1, zMeshVal_first_reflect w n j hn hj]

/-- C5 witness: the theorem applies at `R = 1`, `w = 1`, `n = 2`, `j = 0`. -/
theorem half_twist_closure_witness :
    entry (xMesh 1 1 2) 0 1 = some (xPos 1 0 (-(vVal 1 2 0))) ∧
    entry (xMesh 1 1 2) 1 0 = some (xPos 1 0 (-(vVal 1 2 0))) := by
  have h := half_twist_closure 1 1 2 (by norm_num) (by norm_num) (by norm_num) 0
    (by norm_num)
  exact ⟨h.1, h.2.2.2.1⟩

/-- C8: for every valid model: `u` and `v` have length `n` with
`u[0] = 0`, `u[n-1] = 2π`, uniform step `2π/(n-1)`, `v[0] = -w/2`,
`v[n-1] = w/2`, and the grids `U`, `V`, `X`, `Y`, `Z` all have shape
n×n. -/
theorem grid_shapes_and_endpoints (R w : ℝ) (n : ℕ)
    (hR : 0 < R) (hw : 0 < w) (hn : 2 ≤ n) :
    (uSeq n).length = n ∧ (vSeq w n).length = n ∧
    (uGrid n).length = n ∧ (∀ row ∈ uGrid n, row.length = n) ∧
    (vGrid w n).length = n ∧ (∀ row ∈ vGrid w n, row.length = n) ∧
    (xMesh R w n).length = n ∧ (∀ row ∈ xMesh R w n, row.length = n) ∧
    (yMesh R w n).length = n ∧ (∀ row ∈ yMesh R w n, row.length = n) ∧
    (zMesh w n).length = n ∧ (∀ row ∈ zMesh w n, row.length = n) ∧
    (uSeq n)[0]? = some 0 ∧ (uSeq n)[n - 1]? = some (2 * Real.pi) ∧
    (∀ i, i + 1 < n → uVal n (i + 1) - uVal n i = 2 * Real.pi / ((n : ℝ) - 1)) ∧
    (∀ j, j + 1 < n → vVal w n (j + 1) - vVal w n j = w / ((n : ℝ) - 1)) ∧
    (vSeq w n)[0]? = some (-(w / 2)) ∧ (vSeq w n)[n - 1]? = some (w / 2) := by
  have hlast : n - 1 < n := by omega
  have hzero : 0 < n := by omega
  refine ⟨linspace_length 0 (2 * Real.pi) n, linspace_length (-(w / 2)) (w / 2) n,
    by simp [uGrid], ?_, by simp [vGrid], ?_, by simp [xMesh], ?_, by simp [yMesh], ?_,
    by simp [zMesh], ?_, ?_, ?_, fun i _ => uVal_step n i, fun j _ => vVal_step w n j,
    ?_, ?_⟩
  · intro row hrow
    simp only [uGrid, List.mem_map] at hrow
    obtain ⟨a, _, rfl⟩ := hrow
    simp
  · intro row hrow
    simp only [vGrid, List.mem_map] at hrow
    obtain ⟨a, _, rfl⟩ := hrow
    simp
  · intro row hrow
    simp only [xMesh, List.mem_map] at hrow
    obtain ⟨a, _, rfl⟩ := hrow
    simp
  · intro row hrow
    simp only [yMesh, List.mem_map] at hrow
    obtain ⟨a, _, rfl⟩ := hrow
    simp
  · intro row hrow
    simp only [zMesh, List.mem_map] at hrow
    obtain ⟨a, _, rfl⟩ := hrow
    simp
  · rw [uSeq_getElem n 0 hzero, uVal_zero]
  · rw [uSeq_getElem n (n - 1) hlast, uVal_last n hn]
  · rw [vSeq_getElem w n 0 hzero, vVal_zero]
  · rw [vSeq_getElem w n (n - 1) hlast, vVal_last w n hn]

/-- C8 witness: the theorem applies at `R = 1`, `w = 1`, `n = 2`. -/
theorem grid_shapes_and_endpoints_witness :
    (uSeq 2).length = 2 ∧ (uSeq 2)[0]? = some 0 ∧
    (uSeq 2)[1]? = some (2 * Real.pi) ∧ (vSeq 1 2)[1]? = some ((1 : ℝ) / 2) := by
  have h := grid_shapes_and_endpoints 1 1 2 (by norm_num) (by norm_num) (by norm_num)
  exact ⟨h.1, h.2.2.2.2.2.2.2.2.2.2.2.2.1, h.2.2.2.2.2.2.2.2.2.2.2.2.2.1,
    h.2.2.2.2.2.2.2.2.2.2.2.2.2.2.2.2.2⟩

/-- C9: the two query methods are deterministic, idempotent and
non-mutating: a method call leaves the model state (every stored field)
unchanged, and calling a method again after any call returns the same
value. -/
theorem query_methods_pure_idempotent (m : Model) :
    m.surfaceArea.2 = m ∧ m.edgeLength.2 = m ∧
    (m.surfaceArea.2.surfaceArea).1 = m.surfaceArea.1 ∧
    (m.edgeLength.2.edgeLength).1 = m.edgeLength.1 ∧
    (m.surfaceArea.2.edgeLength).1 = m.edgeLength.1 ∧
    (m.edgeLength.2.surfaceArea).1 = m.surfaceArea.1 ∧
    m.surfaceArea.2.R = m.R ∧ m.surfaceArea.2.w = m.w ∧ m.surfaceArea.2.n = m.n ∧
    m.surfaceArea.2.u = m.u ∧ m.surfaceArea.2.v = m.v ∧
    m.surfaceArea.2.U = m.U ∧ m.surfaceArea.2.V = m.V ∧
    m.surfaceArea.2.mesh = m.mesh ∧
    m.edgeLength.2.R = m.R ∧ m.edgeLength.2.w = m.w ∧ m.edgeLength.2.n = m.n ∧
    m.edgeLength.2.u = m.u ∧ m.edgeLength.2.v = m.v ∧
    m.edgeLength.2.U = m.U ∧ m.edgeLength.2.V = m.V ∧
    m.edgeLength.2.mesh = m.mesh :=
  ⟨rfl, rfl, rfl, rfl, rfl, rfl, rfl, rfl, rfl, rfl, rfl, rfl, rfl, rfl, rfl, rfl,
    rfl, rfl, rfl, rfl, rfl, rfl⟩

/-! ### Scaling lemmas -/

lemma vVal_scale (k w : ℝ) (n j : ℕ) : vVal (k * w) n j = k * vVal w n j := by
  unfold vVal linVal
  ring

lemma areaIntegrand_scale (k R u v : ℝ) (hk : 0 ≤ k) :
    areaIntegrand (k * R) u (k * v) = k * areaIntegrand R u v := by
  unfold areaIntegrand
  have h1 : y_u (k * R) u (k * v) * z_v u - z_u u (k * v) * y_v u =
      k * (y_u R u v * z_v u - z_u u v * y_v u) := by
    unfold y_u z_u y_v z_v
    ring
  have h2 : z_u u (k * v) * x_v u - x_u (k * R) u (k * v) * z_v u =
      k * (z_u u v * x_v u - x_u R u v * z_v u) := by
    unfold x_u z_u x_v z_v
    ring
  have h3 : x_u (k * R) u (k * v) * y_v u - y_u (k * R) u (k * v) * x_v u =
      k * (x_u R u v * y_v u - y_u R u v * x_v u) := by
    unfold x_u y_u x_v y_v
    ring
  rw [h1, h2, h3]
  have h4 : (k * (y_u R u v * z_v u - z_u u v * y_v u)) ^ 2 +
      (k * (z_u u v * x_v u - x_u R u v * z_v u)) ^ 2 +
      (k * (x_u R u v * y_v u - y_u R u v * x_v u)) ^ 2 =
      k ^ 2 * ((y_u R u v * z_v u - z_u u v * y_v u) ^ 2 +
        (z_u u v * x_v u - x_u R u v * z_v u) ^ 2 +
        (x_u R u v * y_v u - y_u R u v * x_v u) ^ 2) := by
    ring
  rw [h4, Real.sqrt_mul (sq_nonneg k), Real.sqrt_sq hk]

lemma edgeIntegrand_scale (k R w u : ℝ) (hk : 0 ≤ k) :
    edgeIntegrand (k * R) (k * w) u = k * edgeIntegrand R w u := by
  unfold edgeIntegrand
  have h4 : dx_du (k * R) (k * w) u ^ 2 + dy_du (k * R) (k * w) u ^ 2 +
      dz_du (k * w) u ^ 2 =
      k ^ 2 * (dx_du R w u ^ 2 + dy_du R w u ^ 2 + dz_du w u ^ 2) := by
    unfold dx_du dy_du dz_du
    ring
  rw [h4, Real.sqrt_mul (sq_nonneg k), Real.sqrt_sq hk]

lemma surfaceAreaVal_scale (k R w : ℝ) (n : ℕ) (hk : 0 ≤ k) :
    surfaceAreaVal (k * R) (k * w) n = k ^ 2 * surfaceAreaVal R w n := by
  unfold surfaceAreaVal areaIntegrandSum
  have hs : ∀ j ∈ Finset.range n, ∀ i ∈ Finset.range n,
      areaIntegrand (k * R) (uVal n i) (vVal (k * w) n j) =
        k * areaIntegrand R (uVal n i) (vVal w n j) := by
    intro j _ i _
    rw [vVal_scale k w n j]
    exact areaIntegrand_scale k R (uVal n i) (vVal w n j) hk
  rw [Finset.sum_congr rfl fun j hj =>
    Finset.sum_congr rfl fun i hi => hs j hj i hi]
  rw [vVal_scale k w n 1, vVal_scale k w n 0]
  rw [show (∑ j ∈ Finset.range n, ∑ i ∈ Finset.range n,
      k * areaIntegrand R (uVal n i) (vVal w n j)) =
      k * ∑ j ∈ Finset.range n, ∑ i ∈ Finset.range n,
        areaIntegrand R (uVal n i) (vVal w n j) by
    rw [Finset.mul_sum]
    exact Finset.sum_congr rfl fun j _ => (Finset.mul_sum _ _ _).symm]
  ring

lemma edgeLengthVal_scale (k R w : ℝ) (n : ℕ) (hk : 0 ≤ k) :
    edgeLengthVal (k * R) (k * w) n = k * edgeLengthVal R w n := by
  unfold edgeLengthVal edgeIntegrandSum
  rw [Finset.sum_congr rfl fun i _ => edgeIntegrand_scale k R w (uVal n i) hk]
  rw [← Finset.mul_sum]
  ring

/-- C6: scale law.  For `k > 0` and a valid `(R, w, n)`, the model built
with `(k·R, k·w, n)` returns exactly `k²` times the surface area and `k`
times the edge length of the `(R, w, n)` model. -/
theorem scale_law_area_quadratic_edge_linear (R w k : ℝ) (n : ℕ)
    (hk : 0 < k) (hR : 0 < R) (hw : 0 < w) (hn : 2 ≤ n) :
    compute_surface_area R w n = Except.ok (surfaceAreaVal R w n) ∧
    compute_edge_length R w n = Except.ok (edgeLengthVal R w n) ∧
    compute_surface_area (k * R) (k * w) n =
      Except.ok (k ^ 2 * surfaceAreaVal R w n) ∧
    compute_edge_length (k * R) (k * w) n =
      Except.ok (k * edgeLengthVal R w n) := by
  refine ⟨compute_surface_area_ok R w n hn, compute_edge_length_ok R w n hn, ?_, ?_⟩
  · rw [compute_surface_area_ok (k * R) (k * w) n hn,
      surfaceAreaVal_scale k R w n hk.le]
  · rw [compute_edge_length_ok (k * R) (k * w) n hn,
      edgeLengthVal_scale k R w n hk.le]

/-- C6 witness: the theorem applies at `R = 1`, `w = 1`, `k = 2`, `n = 2`. -/
theorem scale_law_area_quadratic_edge_linear_witness :
    compute_surface_area (2 * 1) (2 * 1) 2 =
      Except.ok ((2 : ℝ) ^ 2 * surfaceAreaVal 1 1 2) ∧
    compute_edge_length (2 * 1) (2 * 1) 2 =
      Except.ok ((2 : ℝ) * edgeLengthVal 1 1 2) := by
  have h := scale_law_area_quadratic_edge_linear 1 1 2 2 (by norm_num) (by norm_num)
    (by norm_num) (by norm_num)
  exact ⟨h.2.2.1, h.2.2.2⟩

/-! ### Behaviour as the width tends to zero -/

lemma continuous_vVal (n j : ℕ) : Continuous fun w : ℝ => vVal w n j := by
  unfold vVal linVal
  continuity

lemma continuous_areaIntegrand_v (R u : ℝ) :
    Continuous fun v => areaIntegrand R u v := by
  unfold areaIntegrand x_u y_u z_u x_v y_v z_v
  apply Real.continuous_sqrt.comp
  continuity

lemma continuous_edgeIntegrand_w (R u : ℝ) :
    Continuous fun w => edgeIntegrand R w u := by
  unfold edgeIntegrand dx_du dy_du dz_du
  apply Real.continuous_sqrt.comp
  continuity

lemma continuous_surfaceAreaVal (R : ℝ) (n : ℕ) :
    Continuous fun w => surfaceAreaVal R w n := by
  unfold surfaceAreaVal areaIntegrandSum
  refine Continuous.mul (Continuous.mul ?_ continuous_const) ?_
  · exact continuous_finset_sum _ fun j _ => continuous_finset_sum _ fun i _ =>
      (continuous_areaIntegrand_v R (uVal n i)).comp (continuous_vVal n j)
  · exact (continuous_vVal n 1).sub (continuous_vVal n 0)

lemma continuous_edgeLengthVal (R : ℝ) (n : ℕ) :
    Continuous fun w => edgeLengthVal R w n := by
  unfold edgeLengthVal edgeIntegrandSum
  refine Continuous.mul ?_ continuous_const
  exact continuous_finset_sum _ fun i _ => continuous_edgeIntegrand_w R (uVal n i)

lemma vVal_w_zero (n j : ℕ) : vVal 0 n j = 0 := by
  unfold vVal linVal
  norm_num

lemma surfaceAreaVal_w_zero (R : ℝ) (n : ℕ) : surfaceAreaVal R 0 n = 0 := by
  unfold surfaceAreaVal
  rw [vVal_w_zero n 1, vVal_w_zero n 0]
  ring

lemma edgeIntegrand_w_zero (R u : ℝ) (hR : 0 ≤ R) : edgeIntegrand R 0 u = R := by
  unfold edgeIntegrand dx_du dy_du dz_du
  have h : (-(R + 0 / 2 * Real.cos (u / 2)) * Real.sin u -
        0 / 4 * Real.sin (u / 2) * Real.cos u) ^ 2 +
      ((R + 0 / 2 * Real.cos (u / 2)) * Real.cos u -
        0 / 4 * Real.sin (u / 2) * Real.sin u) ^ 2 +
      (0 / 4 * Real.cos (u / 2)) ^ 2 =
      R ^ 2 * (Real.sin u ^ 2 + Real.cos u ^ 2) := by
    ring
  rw [h, Real.sin_sq_add_cos_sq, mul_one, Real.sqrt_sq hR]

lemma edgeLengthVal_w_zero (R : ℝ) (n : ℕ) (hR : 0 ≤ R) :
    edgeLengthVal R 0 n = (n : ℝ) * R * (2 * Real.pi / ((n : ℝ) - 1)) := by
  unfold edgeLengthVal edgeIntegrandSum
  rw [Finset.sum_congr rfl fun i _ => edgeIntegrand_w_zero R (uVal n i) hR]
  rw [Finset.sum_const, Finset.card_range, uVal_step n 0]
  simp only [nsmul_eq_mul]

/-- C7 counterexample: at `R = 1`, `n = 2` the edge length does not tend
to `2πR` as the width tends to `0` from the right (it tends to `4π`), so
the claimed pair of limits fails as stated. -/
theorem width_to_zero_limits_counterexample :
    ¬ (Filter.Tendsto (fun w => surfaceAreaVal 1 w 2) (nhdsWithin 0 (Set.Ioi 0))
        (nhds 0) ∧
      Filter.Tendsto (fun w => edgeLengthVal 1 w 2) (nhdsWithin 0 (Set.Ioi 0))
        (nhds (2 * Real.pi * 1))) := by
  rintro ⟨-, hB⟩
  have hcont : Filter.Tendsto (fun w => edgeLengthVal 1 w 2)
      (nhdsWithin 0 (Set.Ioi 0)) (nhds (edgeLengthVal 1 0 2)) :=
    ((continuous_edgeLengthVal 1 2).tendsto 0).mono_left nhdsWithin_le_nhds
  have hval : edgeLengthVal 1 0 2 = 4 * Real.pi := by
    rw [edgeLengthVal_w_zero 1 2 (by norm_num)]
    norm_num
    ring
  rw [hval] at hcont
  have huniq : (2 : ℝ) * Real.pi * 1 = 4 * Real.pi := tendsto_nhds_unique hB hcont
  have hpi := Real.pi_pos
  nlinarith [huniq]

/-- C7 amended: for fixed `R > 0` and `n ≥ 2`, as `w → 0⁺` the surface
area tends to `0` and the edge length tends to `n/(n-1) · 2πR` (the code
multiplies the sum of all `n` speeds, both endpoints included, by
`du = 2π/(n-1)`), not to `2πR`. -/
theorem width_to_zero_limits_amended (R : ℝ) (n : ℕ) (hR : 0 < R) (hn : 2 ≤ n) :
    (∀ w : ℝ, compute_surface_area R w n = Except.ok (surfaceAreaVal R w n)) ∧
    (∀ w : ℝ, compute_edge_length R w n = Except.ok (edgeLengthVal R w n)) ∧
    Filter.Tendsto (fun w => surfaceAreaVal R w n) (nhdsWithin 0 (Set.Ioi 0))
      (nhds 0) ∧
    Filter.Tendsto (fun w => edgeLengthVal R w n) (nhdsWithin 0 (Set.Ioi 0))
      (nhds ((n : ℝ) * R * (2 * Real.pi / ((n : ℝ) - 1)))) := by
  refine ⟨fun w => compute_surface_area_ok R w n hn,
    fun w => compute_edge_length_ok R w n hn, ?_, ?_⟩
  · have h := ((continuous_surfaceAreaVal R n).tendsto 0).mono_left
      (nhdsWithin_le_nhds (s := Set.Ioi (0 : ℝ)))
    rwa [surfaceAreaVal_w_zero R n] at h
  · have h := ((continuous_edgeLengthVal R n).tendsto 0).mono_left
      (nhdsWithin_le_nhds (s := Set.Ioi (0 : ℝ)))
    rwa [edgeLengthVal_w_zero R n hR.le] at h

/-- C7 amended witness: the theorem applies at `R = 1`, `n = 2`. -/
theorem width_to_zero_limits_amended_witness :
    compute_edge_length 1 1 2 = Except.ok (edgeLengthVal 1 1 2) ∧
    Filter.Tendsto (fun w => surfaceAreaVal 1 w 2) (nhdsWithin 0 (Set.Ioi 0))
      (nhds 0) ∧
    Filter.Tendsto (fun w => edgeLengthVal 1 w 2) (nhdsWithin 0 (Set.Ioi 0))
      (nhds (((2 : ℕ) : ℝ) * 1 * (2 * Real.pi / (((2 : ℕ) : ℝ) - 1)))) := by
  have h := width_to_zero_limits_amended 1 2 (by norm_num) (by norm_num)
  exact ⟨h.2.1 1, h.2.2.1, h.2.2.2⟩

end Mobius
